import Mathlib

/-!
Verification of the caddy-langneg language-negotiation matcher.

The module code (`langnegmatcher.go`) is embedded below: `Config`,
`Matcher`, `Provision`, `Validate`, `Match` and `matchLanguage` follow the
Go source.  The negotiation engine itself (`language.MatchStrings`,
`language.Make` from `golang.org/x/text/language`) is an external library,
so those parts are modelled from the specification (header parsing §4.1,
tag model §4.2, match engine §4.3); each such definition carries a
`Modelled from the spec` note.  Quality weights are represented in
thousandths (an exact rational representation of the at-most-3-decimal
q-values of the HTTP weighted-list grammar), and confidence scores are
doubled (0.5 -> 1, 1 -> 2, 2 -> 4, 3 -> 6) so all arithmetic stays in Nat.
-/

namespace Langneg

/-- Configuration of the matcher, mirroring the Go `Config` struct. -/
structure Config where
  MatchLanguages : List String
  FullLocale : Bool
  VarLanguage : String
  FallbackValue : String
deriving DecidableEq, Repr

/-- Modelled from the spec (§4.2 Tag Model, for the external
`language.Tag`): a normalized identifier with language/script/region
component slots plus an exactness flag per component. -/
structure LanguageTag where
  lang : String
  script : String
  region : String
  langExact : Bool
  scriptExact : Bool
  regionExact : Bool
deriving DecidableEq, Repr

/-- The distinguished Root/wildcard sentinel tag (the library `language.Und`). -/
def Root : LanguageTag := ⟨"", "", "", false, false, false⟩

/-- Mirrors `tag.IsRoot()`: the sentinel has no language component. -/
def LanguageTag.isRoot (t : LanguageTag) : Bool := decide (t.lang = "")

/-- All characters of the string are alphabetic. -/
def isAlphaStr (s : String) : Bool := s.toList.all Char.isAlpha

/-- All characters of the string are decimal digits. -/
def isDigitStr (s : String) : Bool := s.toList.all Char.isDigit

/-- Characterwise splitting on a single separator character, structurally
recursive so that concrete inputs reduce inside the kernel. -/
def splitOnCharList (c : Char) : List Char → List (List Char)
  | [] => [[]]
  | x :: xs =>
    match splitOnCharList c xs with
    | [] => if x = c then [[], []] else [[x]]
    | y :: ys => if x = c then [] :: y :: ys else (x :: y) :: ys

/-- String splitting on a single separator character. -/
def splitOnChar (c : Char) (s : String) : List String :=
  (splitOnCharList c s.toList).map String.mk

/-- Strips leading and trailing whitespace. -/
def trimStr (s : String) : String :=
  String.mk (((s.toList.dropWhile Char.isWhitespace).reverse.dropWhile Char.isWhitespace).reverse)

/-- Parses a non-empty all-digit string as a natural number. -/
def strToNat (s : String) : Option Nat :=
  if s.toList ≠ [] ∧ s.toList.all Char.isDigit = true then
    some (s.toList.foldl (fun n c => n * 10 + (c.toNat - 48)) 0)
  else none

/-- Joins strings with hyphens (the `strings.Join(res, "-")` of the source). -/
def joinDash : List String → String
  | [] => ""
  | [x] => x
  | x :: y :: ys => x ++ "-" ++ joinDash (y :: ys)

/-- Modelled from the spec (§4.2, for the external `language.Make`):
split on hyphens; a 2-3 alphabetic first subtag is the language, a
following 4-alphabetic subtag the script, then a 2-alphabetic or 3-digit
subtag the region; `*` and `*-*` parse to Root, and malformed identifiers
(no language subtag extractable) degrade to Root instead of erroring. -/
def parseTag (s : String) : LanguageTag :=
  if s = "*" ∨ s = "*-*" then Root
  else
    match splitOnChar (Char.ofNat 45) s with
    | [] => Root
    | l :: rest =>
      if (l.length = 2 ∨ l.length = 3) ∧ isAlphaStr l = true then
        let sr : String × List String :=
          match rest with
          | [] => ("", [])
          | x :: xs => if x.length = 4 ∧ isAlphaStr x = true then (x, xs) else ("", x :: xs)
        let reg : String :=
          match sr.2 with
          | [] => ""
          | x :: _ =>
            if (x.length = 2 ∧ isAlphaStr x = true) ∨ (x.length = 3 ∧ isDigitStr x = true)
            then x else ""
        { lang := l, script := sr.1, region := reg,
          langExact := true, scriptExact := sr.1 != "", regionExact := reg != "" }
      else Root

/-- Modelled from the spec (§4.1, for the external q-value parsing): a
quality weight in thousandths; at most three fraction digits per the HTTP
weighted-list grammar, value must land in [0, 1000]; anything else is
malformed (`none`, the range is dropped). -/
def parseQ (s : String) : Option Nat :=
  match splitOnChar (Char.ofNat 46) s with
  | [i] =>
    match strToNat i with
    | some n => if n ≤ 1 then some (n * 1000) else none
    | none => none
  | [i, f] =>
    if f.length ≤ 3 ∧ (f = "" ∨ isDigitStr f = true) then
      match strToNat i, (if f = "" then some 0 else strToNat f) with
      | some n, some fr =>
        let q := n * 1000 + fr * 10 ^ (3 - f.length)
        if q ≤ 1000 then some q else none
      | _, _ => none
    else none
  | _ => none

/-- Splits one header segment into its tag text and an optional raw
quality string after a case-insensitive `;q=` parameter; with no such
parameter the whole segment is the tag text. -/
def splitSeg (seg : String) : String × Option String :=
  match splitOnChar (Char.ofNat 59) seg with
  | [] => (seg, none)
  | [_] => (seg, none)
  | t :: p :: _ =>
    match p.toList with
    | q :: eq :: rest =>
      if (q = Char.ofNat 113 ∨ q = Char.ofNat 81) ∧ eq = Char.ofNat 61 then
        (t, some (String.mk rest))
      else (seg, none)
    | _ => (seg, none)

/-- Modelled from the spec (§4.1 LanguageRange Parser): split the header
on commas, trim, drop empty segments; absent weight means quality 1;
a malformed weight drops that single range only.  Each surviving range is
the parsed tag paired with its quality in thousandths. -/
def parseRanges (hdr : String) : List (LanguageTag × Nat) :=
  (((splitOnChar (Char.ofNat 44) hdr).map trimStr).filter (fun seg => seg ≠ "")).filterMap
    (fun seg =>
      let tq := splitSeg seg
      match tq.2 with
      | none => some (parseTag (trimStr tq.1), 1000)
      | some q =>
        match parseQ q with
        | some qv => some (parseTag (trimStr tq.1), qv)
        | none => none)

/-- Modelled from the spec (§4.3 step 3): the confidence score of one
(range tag, offered tag) pair, doubled so that Nat suffices
(0.5 -> 1, 1 -> 2, 2 -> 4, 3 -> 6).  The offered Root sentinel matches
nothing meaningfully on its own (§3 Tag Model), a wildcard range matches
every offered tag with the fixed moderate confidence 0.5. -/
def score2 (rt ot : LanguageTag) : Nat :=
  if ot.isRoot = true then 0
  else if rt.isRoot = true then 1
  else if rt.lang ≠ ot.lang then 0
  else if rt.scriptExact = true ∧ ot.scriptExact = true ∧ rt.script = ot.script ∧
          rt.regionExact = true ∧ ot.regionExact = true ∧ rt.region = ot.region then 6
  else if (rt.scriptExact = false ∨ ot.scriptExact = false) ∧
          rt.regionExact = true ∧ ot.regionExact = true ∧ rt.region = ot.region then 4
  else 2

/-- Modelled from the spec (§4.3 step 4): the total confidence of an
offered tag is the maximum over all ranges of `score * quality` (a range
of quality 0 contributes an effective score of 0, which is the same as
dropping it under a maximum). -/
def confOf (ranges : List (LanguageTag × Nat)) (t : LanguageTag) : Nat :=
  (ranges.map (fun rq => score2 rq.1 t * rq.2)).foldl Nat.max 0

/-- Modelled from the spec (§4.3 step 5): pick the offered tag of highest
confidence; on ties the earlier-listed tag wins. -/
def pickBest (conf : LanguageTag → Nat) : List LanguageTag → Option (LanguageTag × Nat)
  | [] => none
  | t :: ts =>
    match pickBest conf ts with
    | none => some (t, conf t)
    | some (bt, bc) => if conf t ≥ bc then some (t, conf t) else some (bt, bc)

/-- Modelled from the spec (§4.3 steps 5-6): the best offered tag, or the
Root sentinel when no offered tag scores a positive confidence. -/
def bestTag (offered : List LanguageTag) (ranges : List (LanguageTag × Nat)) : LanguageTag :=
  match pickBest (confOf ranges) offered with
  | none => Root
  | some (t, c) => if c = 0 then Root else t

/-- The matcher after provisioning, mirroring the Go `Matcher` struct:
the configuration plus the offered tag list handed to the library matcher
(the Root sentinel prepended, then the parsed `match_languages`). -/
structure Matcher where
  config : Config
  languageMatcher : List LanguageTag
deriving DecidableEq, Repr

/-- Modelled from the spec (§4.3 contract, for the external
`language.MatchStrings`): parse the header and select the best offered tag. -/
def MatchStrings (offered : List LanguageTag) (hdr : String) : LanguageTag :=
  bestTag offered (parseRanges hdr)

/-- The offered set built by `Provision`: `language.Und` (Root) prepended,
then each configured identifier through the non-erroring parse. -/
def mkMatcher (cfg : Config) : Matcher :=
  { config := cfg, languageMatcher := Root :: cfg.MatchLanguages.map parseTag }

/-- Mirrors `Matcher.Provision`: builds the offered tag list and always
returns a nil error. -/
def Provision (cfg : Config) : Except String Matcher := .ok (mkMatcher cfg)

/-- Mirrors `Matcher.Validate`: errors exactly when no offered languages
are configured while a result-variable name is set.  (The exact message
text of the Go source is abbreviated here.) -/
def Validate (cfg : Config) : Except String Unit :=
  if cfg.MatchLanguages.length = 0 ∧ 0 < cfg.VarLanguage.length then
    .error "you cannot specify a variable to store content negotiation results (for languages) if you do not also specify what languages are offered"
  else .ok ()

/-- Mirrors the full-locale branch of `Matcher.matchLanguage`
(lines 158-175): join the components whose confidence is Exact, in the
order base, region, script. -/
def joinExact (t : LanguageTag) : String :=
  joinDash
    ((if t.langExact = true then [t.lang] else []) ++
     (if t.regionExact = true then [t.region] else []) ++
     (if t.scriptExact = true then [t.script] else []))

/-- The tag selected by the library matcher for this request header. -/
def selectedTag (m : Matcher) (hdr : String) : LanguageTag :=
  MatchStrings m.languageMatcher hdr

/-- Mirrors `Matcher.matchLanguage`: a match is a non-Root selected tag;
the result is the full-locale join or just the base language, and the
empty string on no match. -/
def matchLanguage (m : Matcher) (hdr : String) : Bool × String :=
  if (selectedTag m hdr).isRoot = true then (false, "")
  else if m.config.FullLocale = true then (true, joinExact (selectedTag m hdr))
  else (true, (selectedTag m hdr).lang)

/-- Request-scoped variable storage (the caddy var table), by key. -/
def Vars := String → Option String

/-- Mirrors `caddyhttp.SetVar`. -/
def setVar (vars : Vars) (k v : String) : Vars :=
  fun x => if x = k then some v else vars x

/-- The empty variable table. -/
def emptyVars : Vars := fun _ => none

/-- Mirrors `Matcher.Match` (lines 128-146) including its effect on the
request variable table: with no offered languages the match is trivially
true; otherwise on a language match with a variable name configured the
locale is published; else if both a fallback value and a variable name are
configured the fallback is published and true returned; else the plain
match outcome is returned with the table untouched. -/
def Match (m : Matcher) (hdr : String) (vars : Vars) : Bool × Vars :=
  if m.config.MatchLanguages.length = 0 then (true, vars)
  else if (matchLanguage m hdr).1 = true ∧ 0 < m.config.VarLanguage.length then
    ((matchLanguage m hdr).1,
      setVar vars ("langneg_" ++ m.config.VarLanguage) (matchLanguage m hdr).2)
  else if 0 < m.config.FallbackValue.length ∧ 0 < m.config.VarLanguage.length then
    (true, setVar vars ("langneg_" ++ m.config.VarLanguage) m.config.FallbackValue)
  else ((matchLanguage m hdr).1, vars)

/-- The formatter as the spec words it (§4.4 full-locale case): the
hyphen-join of exactly the components marked exact, in the fixed order
language, region, script. -/
def specFormatFull (t : LanguageTag) : String :=
  joinDash
    (List.filterMap (fun p => if p.2 = true then some p.1 else none)
      [(t.lang, t.langExact), (t.region, t.regionExact), (t.script, t.scriptExact)])

theorem pickBest_mem (conf : LanguageTag → Nat) (l : List LanguageTag) (t : LanguageTag)
    (c : Nat) (h : pickBest conf l = some (t, c)) : t ∈ l := by
  induction l generalizing t c with
  | nil => simp [pickBest] at h
  | cons a as ih =>
    unfold pickBest at h
    cases hp : pickBest conf as with
    | none =>
      rw [hp] at h
      simp only [Option.some.injEq, Prod.mk.injEq] at h
      simp [h.1]
    | some bc =>
      obtain ⟨bt, bcv⟩ := bc
      rw [hp] at h
      by_cases hge : conf a ≥ bcv
      · simp only [hge, if_pos, Option.some.injEq, Prod.mk.injEq] at h
        simp [h.1]
      · simp only [hge, if_neg, Option.some.injEq, Prod.mk.injEq, not_false_iff] at h
        rw [← h.1]
        exact List.mem_cons_of_mem a (ih bt bcv hp)

theorem bestTag_cases (offered : List LanguageTag) (ranges : List (LanguageTag × Nat)) :
    bestTag offered ranges = Root ∨ bestTag offered ranges ∈ offered := by
  unfold bestTag
  cases hp : pickBest (confOf ranges) offered with
  | none => exact Or.inl rfl
  | some tc =>
    obtain ⟨t, c⟩ := tc
    by_cases hc : c = 0
    · simp [hc]
    · simp only [hc, if_neg, not_false_iff]
      exact Or.inr (pickBest_mem (confOf ranges) offered t c hp)

theorem parseTag_lang_alpha (s : String) : isAlphaStr (parseTag s).lang = true := by
  unfold parseTag
  split
  · decide
  · split
    · decide
    · split
      next h => exact h.2
      · decide

theorem isAlphaStr_no_hyphen (s : String) (h : isAlphaStr s = true) :
     (Char.ofNat 45) ∉ s.toList := by
  intro hm
  unfold isAlphaStr at h
  rw [List.all_eq_true] at h
  have := h _ hm
  revert this
  decide

theorem mkMatcher_lang_alpha (cfg : Config) (t : LanguageTag)
    (h : t ∈ (mkMatcher cfg).languageMatcher) : isAlphaStr t.lang = true := by
  unfold mkMatcher at h
  simp only at h
  rw [List.mem_cons] at h
  rcases h with h | h
  · subst h; decide
  · rcases List.mem_map.mp h with ⟨s, hs1, hs2⟩
    rw [← hs2]
    exact parseTag_lang_alpha s

theorem matched_not_root (m : Matcher) (hdr : String)
    (h : (matchLanguage m hdr).1 = true) : (selectedTag m hdr).isRoot = false := by
  unfold matchLanguage at h
  by_cases hr : (selectedTag m hdr).isRoot = true
  · simp [hr] at h
  · exact Bool.not_eq_true _ ▸ hr

theorem joinExact_eq_specFormatFull (t : LanguageTag) : joinExact t = specFormatFull t := by
  obtain ⟨l, sc, rg, le, se, re⟩ := t
  cases le <;> cases se <;> cases re <;> rfl

theorem setVar_idem (vars : Vars) (k v : String) :
    setVar (setVar vars k v) k v = setVar vars k v := by
  funext x
  by_cases hx : x = k <;> simp [setVar, hx]

theorem setVar_ne (vars : Vars) (k v k' : String) (h : k' ≠ k) :
    setVar vars k v k' = vars k' := by
  simp [setVar, h]

theorem Match_no_var (m : Matcher) (hdr : String) (vars : Vars)
    (hv : m.config.VarLanguage = "") : (Match m hdr vars).2 = vars := by
  have hv' : ¬ 0 < m.config.VarLanguage.length := by rw [hv]; decide
  have h2 : ¬((matchLanguage m hdr).1 = true ∧ 0 < m.config.VarLanguage.length) :=
    fun hc => hv' hc.2
  have h3 : ¬(0 < m.config.FallbackValue.length ∧ 0 < m.config.VarLanguage.length) :=
    fun hc => hv' hc.2
  unfold Match
  simp only [if_neg h2, if_neg h3]
  split
  · rfl
  · rfl

theorem Match_other_keys (m : Matcher) (hdr : String) (vars : Vars) (k : String)
    (hk : k ≠ "langneg_" ++ m.config.VarLanguage) :
    (Match m hdr vars).2 k = vars k := by
  unfold Match
  split
  · rfl
  · split
    · exact setVar_ne vars _ _ k hk
    · split
      · exact setVar_ne vars _ _ k hk
      · rfl

theorem Match_nomatch_nofallback (m : Matcher) (hdr : String) (vars : Vars)
    (hm : (matchLanguage m hdr).1 = false) (hf : m.config.FallbackValue = "") :
    (Match m hdr vars).2 = vars := by
  have h2 : ¬((matchLanguage m hdr).1 = true ∧ 0 < m.config.VarLanguage.length) := by
    rw [hm]; simp
  have h3 : ¬(0 < m.config.FallbackValue.length ∧ 0 < m.config.VarLanguage.length) := by
    rw [hf]; simp
  unfold Match
  simp only [if_neg h2, if_neg h3]
  split
  · rfl
  · rfl

/-- C1: evaluation of the code at the failing input.  With offered
languages [de], fallback value "Fallback" configured, no variable name,
and a request header that matches nothing, `Match` returns false and
leaves the variable table untouched, although a fallback is configured:
the fallback branch of the source also demands a non-empty
`var_language`, contradicting the function's own doc comment ("If fails
and fallback value is set returns true"). -/
theorem C1_code_bug_eval :
    Match (mkMatcher ⟨["de"], false, "", "Fallback"⟩) "xx" emptyVars =
      (false, emptyVars) := by
  rfl

/-- C2: if the configured list of offered languages is empty, `Match`
returns true for every request header and variable table. -/
theorem C2_empty_offered_matches (m : Matcher) (hdr : String) (vars : Vars)
    (h : m.config.MatchLanguages = []) : (Match m hdr vars).1 = true := by
  unfold Match
  simp [h]

theorem C2_empty_offered_matches_witness :
    (Match (mkMatcher ⟨[], false, "", ""⟩) "de;q=0.8, en" emptyVars).1 = true :=
  C2_empty_offered_matches (mkMatcher ⟨[], false, "", ""⟩) "de;q=0.8, en" emptyVars rfl

/-- C3: `Validate` returns an error exactly when a result-variable name
is set while the offered-language list is empty; in particular it
succeeds for every configuration with a non-empty list. -/
theorem C3_validate_iff (cfg : Config) :
    (∃ e, Validate cfg = Except.error e) ↔
      (cfg.MatchLanguages = [] ∧ 0 < cfg.VarLanguage.length) := by
  unfold Validate
  by_cases h1 : cfg.MatchLanguages = []
  · by_cases h2 : 0 < cfg.VarLanguage.length
    · simp [h1, h2]
    · simp [h1, h2]
  · simp [h1]

/-- C4: the language-matching step reports a match exactly when the tag
selected by the matcher is not Root, and on no-match the resolved value
is the empty string. -/
theorem C4_root_never_matches (m : Matcher) (hdr : String) :
    ((matchLanguage m hdr).1 = true ↔ (selectedTag m hdr).isRoot = false) ∧
    ((matchLanguage m hdr).1 = false → (matchLanguage m hdr).2 = "") := by
  unfold matchLanguage
  by_cases hr : (selectedTag m hdr).isRoot = true
  · simp [hr]
  · by_cases hf : m.config.FullLocale = true <;>
      simp [hr, hf, Bool.not_eq_true _ ▸ hr]

theorem C4_root_never_matches_witness :
    (matchLanguage (mkMatcher ⟨["de"], false, "", ""⟩) "xx").2 = "" :=
  (C4_root_never_matches (mkMatcher ⟨["de"], false, "", ""⟩) "xx").2 rfl

/-- C5: on a successful match with `fullLocale = false` the resolved
value is exactly the base-language component of the selected tag, and it
contains no hyphen (the language subtag is purely alphabetic). -/
theorem C5_short_locale_no_hyphen (cfg : Config) (hdr : String)
    (hf : cfg.FullLocale = false)
    (hm : (matchLanguage (mkMatcher cfg) hdr).1 = true) :
    (matchLanguage (mkMatcher cfg) hdr).2 = (selectedTag (mkMatcher cfg) hdr).lang ∧
     (Char.ofNat 45) ∉ ((matchLanguage (mkMatcher cfg) hdr).2).toList := by
  have hr : (selectedTag (mkMatcher cfg) hdr).isRoot = false :=
    matched_not_root (mkMatcher cfg) hdr hm
  have hv : (matchLanguage (mkMatcher cfg) hdr).2 =
      (selectedTag (mkMatcher cfg) hdr).lang := by
    unfold matchLanguage
    have hfm : (mkMatcher cfg).config.FullLocale = false := hf
    simp [hr, hfm]
  refine ⟨hv, ?_⟩
  rw [hv]
  have halpha : isAlphaStr (selectedTag (mkMatcher cfg) hdr).lang = true := by
    have hcases := bestTag_cases (mkMatcher cfg).languageMatcher (parseRanges hdr)
    have hsel : selectedTag (mkMatcher cfg) hdr =
        bestTag (mkMatcher cfg).languageMatcher (parseRanges hdr) := rfl
    rw [← hsel] at hcases
    rcases hcases with hroot | hmem
    · rw [hroot] at hr
      exact absurd hr (by decide)
    · exact mkMatcher_lang_alpha cfg _ hmem
  exact isAlphaStr_no_hyphen _ halpha

theorem C5_short_locale_no_hyphen_witness :
    (matchLanguage (mkMatcher ⟨["en"], false, "", ""⟩) "en").2 =
        (selectedTag (mkMatcher ⟨["en"], false, "", ""⟩) "en").lang ∧
     (Char.ofNat 45) ∉ ((matchLanguage (mkMatcher ⟨["en"], false, "", ""⟩) "en").2).toList :=
  C5_short_locale_no_hyphen ⟨["en"], false, "", ""⟩ "en" rfl rfl

/-- C6: on a successful match with `fullLocale = true` the resolved value
is the hyphen-join of exactly the components of the selected tag marked
exact, in the fixed order language, region, script (stated through
`specFormatFull`, which follows the wording of the spec). -/
theorem C6_full_locale_join (cfg : Config) (hdr : String)
    (hf : cfg.FullLocale = true)
    (hm : (matchLanguage (mkMatcher cfg) hdr).1 = true) :
    (matchLanguage (mkMatcher cfg) hdr).2 =
      specFormatFull (selectedTag (mkMatcher cfg) hdr) := by
  have hr : (selectedTag (mkMatcher cfg) hdr).isRoot = false :=
    matched_not_root (mkMatcher cfg) hdr hm
  have hfm : (mkMatcher cfg).config.FullLocale = true := hf
  unfold matchLanguage
  simp [hr, hfm]
  exact joinExact_eq_specFormatFull _

theorem C6_full_locale_join_witness :
    (matchLanguage (mkMatcher ⟨["de-DE"], true, "", ""⟩) "de-DE").2 =
        specFormatFull (selectedTag (mkMatcher ⟨["de-DE"], true, "", ""⟩) "de-DE") ∧
    (matchLanguage (mkMatcher ⟨["de-DE"], true, "", ""⟩) "de-DE").2 = "de-DE" :=
  ⟨C6_full_locale_join ⟨["de-DE"], true, "", ""⟩ "de-DE" rfl rfl, rfl⟩

/-- C7: with offered languages [de, en] and request header
"en;q=0.4, de;q=0.8", negotiation succeeds and the resolved value is
"de": the higher-quality range wins despite appearing later. -/
theorem C7_higher_quality_wins :
    matchLanguage (mkMatcher ⟨["de", "en"], false, "", ""⟩) "en;q=0.4, de;q=0.8" =
      (true, "de") := by
  rfl

/-- C8: negotiation is deterministic: the match outcome is independent of
the prior variable-table state, and running `Match` a second time on the
state left by the first run returns the same outcome and changes nothing. -/
theorem C8_deterministic (m : Matcher) (hdr : String) (vars vars' : Vars) :
    (Match m hdr vars).1 = (Match m hdr vars').1 ∧
    (Match m hdr ((Match m hdr vars).2)).1 = (Match m hdr vars).1 ∧
    (Match m hdr ((Match m hdr vars).2)).2 = (Match m hdr vars).2 := by
  unfold Match
  by_cases h1 : m.config.MatchLanguages = []
  · simp [h1]
  · by_cases h2 : (matchLanguage m hdr).1 = true ∧ 0 < m.config.VarLanguage.length
    · simp [h1, h2, setVar_idem]
    · by_cases h3 : 0 < m.config.FallbackValue.length ∧ 0 < m.config.VarLanguage.length
      · have ha : ¬((matchLanguage m hdr).1 = true) := fun ha => h2 ⟨ha, h3.2⟩
        simp [h1, ha, h3, setVar_idem]
      · simp [h1, h2, h3]

/-- C9: `Provision` succeeds for every configuration, and every offered
identifier parses to either the Root tag (the degradation for wildcards
and malformed identifiers) or a tag with a language subtag present. -/
theorem C9_provision_total (cfg : Config) :
    Provision cfg = Except.ok (mkMatcher cfg) ∧
    ∀ s : String, parseTag s = Root ∨ (parseTag s).langExact = true := by
  refine ⟨rfl, ?_⟩
  intro s
  unfold parseTag
  split
  · exact Or.inl rfl
  · split
    · exact Or.inl rfl
    · split
      · exact Or.inr rfl
      · exact Or.inl rfl

/-- C10: `Match` only ever writes the variable `langneg_<var_language>`:
every other key of the table is unchanged; when no variable name is
configured the table is unchanged entirely; and when negotiation fails
with no fallback configured the table is also unchanged. -/
theorem C10_frame (m : Matcher) (hdr : String) (vars : Vars) :
    (m.config.VarLanguage = "" → (Match m hdr vars).2 = vars) ∧
    (∀ k, k ≠ "langneg_" ++ m.config.VarLanguage → (Match m hdr vars).2 k = vars k) ∧
    ((matchLanguage m hdr).1 = false ∧ m.config.FallbackValue = "" →
      (Match m hdr vars).2 = vars) :=
  ⟨fun hv => Match_no_var m hdr vars hv,
   fun k hk => Match_other_keys m hdr vars k hk,
   fun hc => Match_nomatch_nofallback m hdr vars hc.1 hc.2⟩

theorem C10_frame_witness :
    (Match (mkMatcher ⟨["de"], false, "", "fb"⟩) "de" emptyVars).2 = emptyVars :=
  (C10_frame (mkMatcher ⟨["de"], false, "", "fb"⟩) "de" emptyVars).1 rfl

end Langneg
